import Mathlib

/-!
Shallow embedding of `src/simulate_strategies.py`, a discrete-time agent-based
market simulator.

Modelling conventions:
* Per-lane vectors (numpy arrays of length `nbr_simulations`) are modelled as
  functions `ι → ℚ` for an arbitrary lane index type `ι`; every numpy
  operation in the source is an element-wise broadcast, which becomes a
  pointwise definition here.
* The source stores numbers as `float32`; following the spec's data model
  ("per-lane non-negative real", "per-lane positive real") they are modelled
  as exact rationals `ℚ`.
* Python's `Market` object stores `cash_injection` and `market_sim` as
  attributes; since they are function objects fixed at construction, they are
  passed as explicit parameters to `Market.tick` here.
* `LimitOrderAgent.__init__` does not initialize `self.limit`; reading the
  attribute before its first assignment would raise `AttributeError`.  The
  field is therefore an `Option`, and `order` returns `none` exactly when the
  Python code would raise.
* `RealSimpleMarketSim.__call__` draws random normals; claims about engine
  runs quantify over an arbitrary price-update function `sim` (with the
  positivity hypothesis the spec assigns to the price model).
-/

/-- Source line 6: `TICKS_PER_YEAR = 10000`. -/
def TICKS_PER_YEAR : ℕ := 10000

/-- The mutable per-agent numeric state installed by `Market.__init__`
(lines 16-17): per-lane `cash` and `depot` vectors. -/
structure AgentState (ι : Type) where
  cash : ι → ℚ
  depot : ι → ℚ

/-- Source line 93: `self.limit_wait_ticks = 10` in `LimitOrderAgent.__init__`. -/
def limit_wait_ticks : ℕ := 10

/-- Source line 94: `self.limit_ratio_value = 0.9999` in
`LimitOrderAgent.__init__` (0.9999 is exactly 9999/10000). -/
def limit_ratio_value : ℚ := 9999 / 10000

/-- The three agent strategy classes of the source (lines 83-101).
`LimitOrderAgent` carries its persistent `self.limit` attribute, `none`
while the attribute is still unassigned. -/
inductive AgentStrategy (ι : Type) where
  | KeepCashAgent : AgentStrategy ι
  | AllInAgent : AgentStrategy ι
  | LimitOrderAgent (limit : Option (ι → ℚ)) : AgentStrategy ι

/-- The `order` methods (lines 84-85, 88-89, 96-101).  Returns the per-lane
order vector together with the agent's updated strategy state; `none` models
the `AttributeError` raised when `LimitOrderAgent.order` reads `self.limit`
before any assignment (tick not a multiple of `limit_wait_ticks` and the
attribute unset).  `KeepCashAgent` returns `np.zeros_like(self.cash)`;
`AllInAgent` returns `self.cash / market_value`; `LimitOrderAgent` first
reassigns `self.limit = market_value * self.limit_ratio_value` when
`tick % self.limit_wait_ticks == 0`, then returns
`(self.cash / market_value) * (market_value <= self.limit)` (boolean mask as
0/1 factor). -/
def AgentStrategy.order {ι : Type} (s : AgentStrategy ι) (st : AgentState ι)
    (market_value : ι → ℚ) (tick : ℕ) : Option ((ι → ℚ) × AgentStrategy ι) :=
  match s with
  | .KeepCashAgent => some (fun _ => 0, .KeepCashAgent)
  | .AllInAgent => some (fun i => st.cash i / market_value i, .AllInAgent)
  | .LimitOrderAgent limit =>
      let limit' := if tick % limit_wait_ticks = 0
        then some (fun i => market_value i * limit_ratio_value)
        else limit
      match limit' with
      | none => none
      | some l =>
          some (fun i => st.cash i / market_value i *
                  (if market_value i ≤ l i then 1 else 0),
                .LimitOrderAgent (some l))

/-- The settlement part of `Market.trade` (lines 21-25), acting on the order
vector already returned by the agent:
`order_value = market_value * order`, clamped by
`order_value = np.minimum(order_value, agent.cash)`, re-derived
`order = order_value / market_value`, then `agent.cash -= order_value` and
`agent.depot += order`. -/
def settle {ι : Type} (market_value : ι → ℚ) (order : ι → ℚ)
    (st : AgentState ι) : AgentState ι :=
  { cash := fun i => st.cash i - min (market_value i * order i) (st.cash i)
    depot := fun i => st.depot i +
      min (market_value i * order i) (st.cash i) / market_value i }

/-- `Market.trade` (lines 19-25): ask the agent for its order at the current
`market_value` and `tick_count`, then settle it. -/
def trade {ι : Type} (market_value : ι → ℚ) (tick : ℕ)
    (a : AgentStrategy ι × AgentState ι) :
    Option (AgentStrategy ι × AgentState ι) :=
  match a.1.order a.2 market_value tick with
  | none => none
  | some (ord, s') => some (s', settle market_value ord a.2)

/-- Line 30: `agent.cash += cash_injection` (scalar broadcast per lane). -/
def addCash {ι : Type} (c : ℚ) (st : AgentState ι) : AgentState ι :=
  { cash := fun i => st.cash i + c, depot := st.depot }

/-- The engine state owned by `Market` (lines 9-17): the clock, the per-lane
price vector, and the agents with their strategy state and cash/depot. -/
structure Market (ι : Type) where
  tick_count : ℕ
  market_value : ι → ℚ
  agents : List (AgentStrategy ι × AgentState ι)

/-- `Market.__init__` (lines 9-17): `tick_count = 0`,
`market_value = np.ones(...)`, and every agent's `cash` and `depot` zeroed. -/
def Market.init {ι : Type} (strategies : List (AgentStrategy ι)) : Market ι :=
  { tick_count := 0
    market_value := fun _ => 1
    agents := strategies.map (fun s => (s, ⟨fun _ => 0, fun _ => 0⟩)) }

/-- The agent loop of `Market.tick` (lines 29-31): for each agent in
registration order, `agent.cash += cash_injection` then `self.trade(agent)`. -/
def tradeLoop {ι : Type} (market_value : ι → ℚ) (tick : ℕ) (cash_injection : ℚ) :
    List (AgentStrategy ι × AgentState ι) →
    Option (List (AgentStrategy ι × AgentState ι))
  | [] => some []
  | a :: rest =>
      match trade market_value tick (a.1, addCash cash_injection a.2) with
      | none => none
      | some a' =>
          match tradeLoop market_value tick cash_injection rest with
          | none => none
          | some rest' => some (a' :: rest')

/-- `Market.tick` (lines 27-33): compute
`cash_injection = self.cash_injection(self.tick_count)`, run the agent loop,
advance `market_value` via `self.market_sim(self.market_value,
self.tick_count)` (modelled as the pure update `sim`), and increment
`tick_count`. -/
def Market.tick {ι : Type} (inj : ℕ → ℚ) (sim : (ι → ℚ) → ℕ → (ι → ℚ))
    (m : Market ι) : Option (Market ι) :=
  match tradeLoop m.market_value m.tick_count (inj m.tick_count) m.agents with
  | none => none
  | some agents' =>
      some { tick_count := m.tick_count + 1
             market_value := sim m.market_value m.tick_count
             agents := agents' }

/-- Repeatedly call `Market.tick`, as the driver loop does (lines 114-116). -/
def runTicks {ι : Type} (inj : ℕ → ℚ) (sim : (ι → ℚ) → ℕ → (ι → ℚ)) :
    ℕ → Market ι → Option (Market ι)
  | 0, m => some m
  | n + 1, m =>
      match m.tick inj sim with
      | none => none
      | some m' => runTicks inj sim n m'

/-- The configuration of `SimpleCashInjection` (lines 35-41): fields set by
`__init__`. -/
structure SimpleCashInjection where
  cash_per_year : ℚ
  payouts_per_year : ℕ
  payout_every_n_ticks : ℕ
  payout : ℚ

/-- `SimpleCashInjection.__init__` (lines 36-41), taken as a function of the
two configuration values the source hardcodes (`cash_per_year = 10000.0`,
`payouts_per_year = 500`): the guard
`assert TICKS_PER_YEAR % self.payouts_per_year == 0` becomes the `if`
(`none` models the raised error; `payouts_per_year = 0` also raises, as
`ZeroDivisionError`, and `TICKS_PER_YEAR % 0 = TICKS_PER_YEAR ≠ 0` lands it
in the same branch), then `payout_every_n_ticks = TICKS_PER_YEAR //
payouts_per_year` and `payout = cash_per_year / payouts_per_year`. -/
def SimpleCashInjection.construct (cash_per_year : ℚ) (payouts_per_year : ℕ) :
    Option SimpleCashInjection :=
  if TICKS_PER_YEAR % payouts_per_year = 0 then
    some { cash_per_year := cash_per_year
           payouts_per_year := payouts_per_year
           payout_every_n_ticks := TICKS_PER_YEAR / payouts_per_year
           payout := cash_per_year / (payouts_per_year : ℚ) }
  else none

/-- `SimpleCashInjection.__call__` (lines 43-46): the payout when
`tick % payout_every_n_ticks == 0`, else `0.0`. -/
def SimpleCashInjection.call (s : SimpleCashInjection) (tick : ℕ) : ℚ :=
  if tick % s.payout_every_n_ticks = 0 then s.payout else 0

/-- Modelled from the spec: phase (b) of the four-phase `tick` description —
"For each agent, in a fixed, deterministic order (the order agents were
registered) ... Call `trade(agent)`" — with no interleaved cash injection. -/
def tradeAllSpec {ι : Type} (market_value : ι → ℚ) (tick : ℕ) :
    List (AgentStrategy ι × AgentState ι) →
    Option (List (AgentStrategy ι × AgentState ι))
  | [] => some []
  | a :: rest =>
      match trade market_value tick a with
      | none => none
      | some a' =>
          match tradeAllSpec market_value tick rest with
          | none => none
          | some rest' => some (a' :: rest')

/-- Modelled from the spec: the four-phase description of `tick` —
(a) compute `injection = cash_schedule(tick_count)` and add it to every
agent's cash vector; (b) trade each agent in registration order;
(c) advance `market_value` via the price model, passing `tick_count`;
(d) increment `tick_count` by exactly 1. -/
def Market.tickSpec {ι : Type} (inj : ℕ → ℚ) (sim : (ι → ℚ) → ℕ → (ι → ℚ))
    (m : Market ι) : Option (Market ι) :=
  let injection := inj m.tick_count
  let injected := m.agents.map (fun a => (a.1, addCash injection a.2))
  match tradeAllSpec m.market_value m.tick_count injected with
  | none => none
  | some agents' =>
      some { tick_count := m.tick_count + 1
             market_value := sim m.market_value m.tick_count
             agents := agents' }

/-- Per-lane non-negativity of an agent's cash and depot. -/
def laneNonneg {ι : Type} (st : AgentState ι) : Prop :=
  ∀ i, 0 ≤ st.cash i ∧ 0 ≤ st.depot i

/-- The run invariant: positive per-lane market value and non-negative
cash/depot for every agent. -/
def MarketInv {ι : Type} (m : Market ι) : Prop :=
  (∀ i, 0 < m.market_value i) ∧ ∀ p ∈ m.agents, laneNonneg p.2

/-- Fixture: a schedule paying 100 every tick. -/
def w_inj : ℕ → ℚ := fun _ => 100

/-- Fixture: the identity price model. -/
def w_sim {ι : Type} : (ι → ℚ) → ℕ → (ι → ℚ) := fun mv _ => mv

/-- Fixture: a 1-lane market with all three provided strategies. -/
def w2_m0 : Market (Fin 1) :=
  Market.init [.KeepCashAgent, .AllInAgent, .LimitOrderAgent none]

/-- Fixture: `w2_m0` after one tick. -/
def w2_m1 : Market (Fin 1) := (runTicks w_inj w_sim 1 w2_m0).getD w2_m0

/-- Fixture: a 1-lane market holding only a `LimitOrderAgent`. -/
def w6_m0 : Market (Fin 1) := Market.init [.LimitOrderAgent none]

/-- Fixture: `w6_m0` after one tick. -/
def w6_m1 : Market (Fin 1) := (w6_m0.tick w_inj w_sim).getD w6_m0

/-- Fixture: `w2_m0` after a single `Market.tick` call. -/
def w3_m1 : Market (Fin 1) := (w2_m0.tick w_inj w_sim).getD w2_m0

/-- C1: a single call to `Market.trade` on the order returned by the agent
settles exactly the clamped notional: `cash_before - cash_after` equals the
executed order value `min (market_value * order) cash_before`, and that
executed value is at most `cash_before`, per lane. -/
theorem cash_conservation_per_trade {ι : Type} (s : AgentStrategy ι)
    (st : AgentState ι) (market_value : ι → ℚ) (tick : ℕ)
    (ord : ι → ℚ) (s' : AgentStrategy ι)
    (h : s.order st market_value tick = some (ord, s')) (i : ι) :
    trade market_value tick (s, st) = some (s', settle market_value ord st) ∧
    st.cash i - (settle market_value ord st).cash i
      = min (market_value i * ord i) (st.cash i) ∧
    min (market_value i * ord i) (st.cash i) ≤ st.cash i := by
  refine ⟨?_, ?_, min_le_right _ _⟩
  · simp [trade, h]
  · simp [settle, sub_sub_cancel]

/-- Witness for C1: a `KeepCashAgent` holding 5 units of cash in one lane. -/
theorem cash_conservation_per_trade_witness :
    trade (fun _ => 1) 0 ((AgentStrategy.KeepCashAgent : AgentStrategy (Fin 1)),
        ⟨fun _ => 5, fun _ => 0⟩)
      = some (.KeepCashAgent,
          settle (fun _ => 1) (fun _ => 0) ⟨fun _ => 5, fun _ => 0⟩) ∧
    (⟨fun _ => 5, fun _ => 0⟩ : AgentState (Fin 1)).cash 0 -
        (settle (fun _ => 1) (fun _ => 0)
          (⟨fun _ => 5, fun _ => 0⟩ : AgentState (Fin 1))).cash 0
      = min ((1:ℚ) * 0) 5 ∧
    min ((1:ℚ) * 0) 5 ≤ (5:ℚ) :=
  cash_conservation_per_trade .KeepCashAgent ⟨fun _ => 5, fun _ => 0⟩
    (fun _ => 1) 0 (fun _ => 0) .KeepCashAgent rfl 0

/-- C4: when the requested notional is affordable in a lane, the clamp is the
identity there — depot grows by exactly the requested order quantity and cash
shrinks by exactly the requested notional. -/
theorem clamp_idempotent {ι : Type} (market_value ord : ι → ℚ)
    (st : AgentState ι) (i : ι) (hpos : 0 < market_value i)
    (haff : market_value i * ord i ≤ st.cash i) :
    (settle market_value ord st).depot i = st.depot i + ord i ∧
    (settle market_value ord st).cash i = st.cash i - market_value i * ord i := by
  have hmin : min (market_value i * ord i) (st.cash i) = market_value i * ord i :=
    min_eq_left haff
  constructor
  · show st.depot i + min (market_value i * ord i) (st.cash i) / market_value i
        = st.depot i + ord i
    rw [hmin, mul_div_cancel_left₀ _ (ne_of_gt hpos)]
  · show st.cash i - min (market_value i * ord i) (st.cash i)
        = st.cash i - market_value i * ord i
    rw [hmin]

/-- Witness for C4: price 2, order 3, cash 10 (notional 6 is affordable). -/
theorem clamp_idempotent_witness :
    (settle (fun _ => 2) (fun _ => 3)
        (⟨fun _ => 10, fun _ => 1⟩ : AgentState (Fin 1))).depot 0 = 1 + 3 ∧
    (settle (fun _ => 2) (fun _ => 3)
        (⟨fun _ => 10, fun _ => 1⟩ : AgentState (Fin 1))).cash 0 = 10 - 2 * 3 :=
  clamp_idempotent (fun _ => 2) (fun _ => 3) ⟨fun _ => 10, fun _ => 1⟩ 0
    (by norm_num) (by norm_num)

/-- C10: the clamp makes post-trade cash non-negative for every order, even a
negative one; no analogous guard exists for depot, which a negative order
drives below zero from a non-negative state. -/
theorem trade_cash_nonneg_unconditional :
    (∀ (ι : Type) (market_value ord : ι → ℚ) (st : AgentState ι) (i : ι),
        0 ≤ st.cash i → 0 < market_value i →
        0 ≤ (settle market_value ord st).cash i) ∧
    (∃ (st : AgentState (Fin 1)) (ord : Fin 1 → ℚ),
        laneNonneg st ∧ ord 0 < 0 ∧
        (settle (fun _ => 1) ord st).depot 0 < 0) := by
  constructor
  · intro ι market_value ord st i _ _
    exact sub_nonneg.2 (min_le_right _ _)
  · refine ⟨⟨fun _ => 0, fun _ => 0⟩, fun _ => -5, fun i => ⟨le_refl 0, le_refl 0⟩,
      by norm_num, ?_⟩
    norm_num [settle]

/-- Witness for C10's universally quantified half at a concrete negative
order. -/
theorem trade_cash_nonneg_unconditional_witness :
    0 ≤ (settle (fun _ => 1) (fun _ => -5)
        (⟨fun _ => 0, fun _ => 0⟩ : AgentState (Fin 1))).cash 0 :=
  trade_cash_nonneg_unconditional.1 (Fin 1) (fun _ => 1) (fun _ => -5)
    ⟨fun _ => 0, fun _ => 0⟩ 0 (by norm_num) (by norm_num)

/-- `Market.trade` on an `AllInAgent` always succeeds and settles the order
`cash / market_value` without changing the strategy state. -/
theorem allIn_trade_eq {ι : Type} (market_value : ι → ℚ) (tick : ℕ)
    (st : AgentState ι) :
    trade market_value tick (.AllInAgent, st)
      = some (.AllInAgent,
          settle market_value (fun i => st.cash i / market_value i) st) := rfl

/-- Settling the all-in order zeroes the lane's cash when the price is
positive. -/
theorem allIn_settle_cash {ι : Type} {market_value : ι → ℚ}
    (st : AgentState ι) {i : ι} (hpos : 0 < market_value i) :
    (settle market_value (fun j => st.cash j / market_value j) st).cash i = 0 := by
  show st.cash i -
      min (market_value i * (st.cash i / market_value i)) (st.cash i) = 0
  rw [mul_comm, div_mul_cancel₀ _ (ne_of_gt hpos), min_self, sub_self]

/-- Settling the all-in order adds `cash / market_value` to the lane's depot
when the price is positive. -/
theorem allIn_settle_depot {ι : Type} {market_value : ι → ℚ}
    (st : AgentState ι) {i : ι} (hpos : 0 < market_value i) :
    (settle market_value (fun j => st.cash j / market_value j) st).depot i
      = st.depot i + st.cash i / market_value i := by
  show st.depot i +
      min (market_value i * (st.cash i / market_value i)) (st.cash i)
        / market_value i
    = st.depot i + st.cash i / market_value i
  rw [mul_comm, div_mul_cancel₀ _ (ne_of_gt hpos), min_self]

/-- C9: a trade on an `AllInAgent` leaves exactly zero cash in every lane and
adds exactly `cash / market_value` to each lane's depot; consequently, when
its cash was zeroed before a tick's injection, the cash it spends in that
tick's trade equals exactly the injection. -/
theorem all_in_spends_everything {ι : Type} (market_value : ι → ℚ) (tick : ℕ)
    (st : AgentState ι) (hpos : ∀ i, 0 < market_value i)
    (hcash : ∀ i, 0 ≤ st.cash i) :
    ∃ st', trade market_value tick (.AllInAgent, st) = some (.AllInAgent, st') ∧
      (∀ i, st'.cash i = 0) ∧
      (∀ i, st'.depot i = st.depot i + st.cash i / market_value i) ∧
      (∀ (c : ℚ) (st'' : AgentState ι),
        trade market_value tick (.AllInAgent, addCash c st)
            = some (.AllInAgent, st'') →
        ∀ i, st.cash i = 0 → (addCash c st).cash i - st''.cash i = c) := by
  refine ⟨_, allIn_trade_eq market_value tick st,
    fun i => allIn_settle_cash st (hpos i),
    fun i => allIn_settle_depot st (hpos i), ?_⟩
  intro c st'' h i hzero
  rw [allIn_trade_eq market_value tick (addCash c st)] at h
  have hst : st'' = settle market_value
      (fun j => (addCash c st).cash j / market_value j) (addCash c st) :=
    ((Prod.mk.injEq _ _ _ _).mp (Option.some.inj h)).2.symm
  rw [hst, allIn_settle_cash (addCash c st) (hpos i)]
  show st.cash i + c - 0 = c
  rw [hzero]
  ring

/-- Witness for C9: one lane, price 1, cash 7. -/
theorem all_in_spends_everything_witness :
    ∃ st', trade (fun _ => (1:ℚ)) 0
        ((AgentStrategy.AllInAgent : AgentStrategy (Fin 1)),
          ⟨fun _ => 7, fun _ => 0⟩)
        = some (.AllInAgent, st') ∧ ∀ i, st'.cash i = 0 := by
  obtain ⟨st', h1, h2, -, -⟩ :=
    all_in_spends_everything (fun _ => (1:ℚ)) 0
      (⟨fun _ => 7, fun _ => 0⟩ : AgentState (Fin 1))
      (fun i => by norm_num) (fun i => by norm_num)
  exact ⟨st', h1, h2⟩

/-- C7: the hardcoded schedule (`cash_per_year = 10000`,
`payouts_per_year = 500`) pays exactly 20 at every tick index divisible by 20
and exactly 0 at every other tick index. -/
theorem payout_periodicity (s : SimpleCashInjection)
    (h : SimpleCashInjection.construct 10000 500 = some s) (t : ℕ) :
    (t % 20 = 0 → s.call t = 20) ∧ (t % 20 ≠ 0 → s.call t = 0) := by
  have hs : s = ⟨10000, 500, 20, 20⟩ := by
    have h' := h.symm
    rw [SimpleCashInjection.construct] at h'
    norm_num [TICKS_PER_YEAR] at h'
    exact h'
  subst hs
  constructor <;> intro hm <;> simp [SimpleCashInjection.call, hm]

/-- Witness for C7: tick 40 pays 20. -/
theorem payout_periodicity_witness :
    (⟨10000, 500, 20, 20⟩ : SimpleCashInjection).call 40 = 20 :=
  (payout_periodicity ⟨10000, 500, 20, 20⟩
      (by norm_num [SimpleCashInjection.construct, TICKS_PER_YEAR]) 40).1
    (by norm_num)

/-- C8: construction of the cash injection schedule fails exactly when the
payout count does not divide `TICKS_PER_YEAR`; on success the per-payout
amount is the annual total divided by the payout count and later calls never
divide (take a modulus) by zero. -/
theorem injection_construction_guard (cash_per_year : ℚ)
    (payouts_per_year : ℕ) :
    (SimpleCashInjection.construct cash_per_year payouts_per_year = none
      ↔ ¬ payouts_per_year ∣ TICKS_PER_YEAR) ∧
    (∀ s, SimpleCashInjection.construct cash_per_year payouts_per_year = some s →
      s.payout = cash_per_year / (payouts_per_year : ℚ) ∧
      s.payout_every_n_ticks ≠ 0) := by
  constructor
  · rw [SimpleCashInjection.construct]
    by_cases hd : payouts_per_year ∣ TICKS_PER_YEAR
    · simp [Nat.mod_eq_zero_of_dvd hd, hd]
    · have hm : ¬ TICKS_PER_YEAR % payouts_per_year = 0 :=
        fun hm => hd (Nat.dvd_iff_mod_eq_zero.mpr hm)
      simp [hm, hd]
  · intro s hs
    rw [SimpleCashInjection.construct] at hs
    by_cases hm : TICKS_PER_YEAR % payouts_per_year = 0
    · rw [if_pos hm] at hs
      obtain rfl := Option.some.inj hs
      refine ⟨rfl, ?_⟩
      have hp : payouts_per_year ≠ 0 := by
        intro h0
        rw [h0] at hm
        simp [TICKS_PER_YEAR] at hm
      have hdvd : payouts_per_year ∣ TICKS_PER_YEAR :=
        Nat.dvd_iff_mod_eq_zero.mpr hm
      have hpos : 0 < TICKS_PER_YEAR / payouts_per_year :=
        Nat.div_pos (Nat.le_of_dvd (by norm_num [TICKS_PER_YEAR]) hdvd)
          (Nat.pos_of_ne_zero hp)
      exact Nat.pos_iff_ne_zero.mp hpos
    · rw [if_neg hm] at hs
      exact absurd hs (by simp)

/-- Witness for C8: 3 does not divide 10000, so construction fails. -/
theorem injection_construction_guard_witness :
    SimpleCashInjection.construct 10000 3 = none :=
  (injection_construction_guard 10000 3).1.mpr (by decide)


/-- The code's interleaved per-agent loop (inject then trade, one agent at a
time) equals the spec's phased description (inject all agents, then trade
each in registration order). -/
theorem tradeLoop_eq_spec {ι : Type} (market_value : ι → ℚ) (tick : ℕ)
    (c : ℚ) (l : List (AgentStrategy ι × AgentState ι)) :
    tradeLoop market_value tick c l
      = tradeAllSpec market_value tick
          (l.map (fun a => (a.1, addCash c a.2))) := by
  induction l with
  | nil => rfl
  | cons a rest ih =>
      simp only [List.map_cons, tradeLoop, tradeAllSpec]
      rw [ih]

/-- C3: `Market.tick` equals the spec's four-phase sequence (injection
broadcast, trades in registration order, price advance, clock increment),
and every successful tick increments `tick_count` by exactly 1. -/
theorem tick_phases_equiv {ι : Type} (inj : ℕ → ℚ)
    (sim : (ι → ℚ) → ℕ → (ι → ℚ)) (m : Market ι) :
    m.tick inj sim = m.tickSpec inj sim ∧
    ∀ m', m.tick inj sim = some m' → m'.tick_count = m.tick_count + 1 := by
  constructor
  · simp only [Market.tick, Market.tickSpec, tradeLoop_eq_spec]
  · intro m' h
    rw [Market.tick] at h
    cases htl : tradeLoop m.market_value m.tick_count (inj m.tick_count)
        m.agents with
    | none => rw [htl] at h; exact Option.noConfusion h
    | some ags =>
        rw [htl] at h
        obtain rfl := Option.some.inj h
        rfl

/-- Witness for C3: one tick of the three-strategy fixture increments the
clock from 0 to 1. -/
theorem tick_phases_equiv_witness : w3_m1.tick_count = w2_m0.tick_count + 1 :=
  (tick_phases_equiv w_inj w_sim w2_m0).2 w3_m1 rfl

/-- A successful agent loop relates input and output agent lists pairwise by
"inject then trade". -/
theorem tradeLoop_forall₂ {ι : Type} (market_value : ι → ℚ) (tick : ℕ)
    (c : ℚ) :
    ∀ (l l' : List (AgentStrategy ι × AgentState ι)),
      tradeLoop market_value tick c l = some l' →
      List.Forall₂
        (fun a b => trade market_value tick (a.1, addCash c a.2) = some b)
        l l' := by
  intro l
  induction l with
  | nil =>
      intro l' h
      obtain rfl := Option.some.inj h
      exact List.Forall₂.nil
  | cons a rest ih =>
      intro l' h
      simp only [tradeLoop] at h
      cases h1 : trade market_value tick (a.1, addCash c a.2) with
      | none => rw [h1] at h; exact Option.noConfusion h
      | some a' =>
          rw [h1] at h
          cases h2 : tradeLoop market_value tick c rest with
          | none => rw [h2] at h; exact Option.noConfusion h
          | some rest' =>
              rw [h2] at h
              obtain rfl := Option.some.inj h
              exact List.Forall₂.cons h1 (ih rest' h2)

/-- One trade on a `LimitOrderAgent`: at a checkpoint tick the stored limit
becomes `market_value * limit_ratio_value`; at any other tick it is
unchanged. -/
theorem trade_limit_update {ι : Type} (market_value : ι → ℚ) (tick : ℕ)
    (lim : Option (ι → ℚ)) (st : AgentState ι)
    (p : AgentStrategy ι × AgentState ι)
    (h : trade market_value tick (.LimitOrderAgent lim, st) = some p) :
    ∃ l' st', p = (.LimitOrderAgent (some l'), st') ∧
      (tick % limit_wait_ticks = 0 →
        l' = fun i => market_value i * limit_ratio_value) ∧
      (¬ tick % limit_wait_ticks = 0 → some l' = lim) := by
  by_cases hm : tick % limit_wait_ticks = 0
  · simp only [trade, AgentStrategy.order, hm, if_pos, ite_true,
      Option.some.injEq] at h
    exact ⟨fun i => market_value i * limit_ratio_value, _, h.symm,
      fun _ => rfl, fun hc => absurd hm hc⟩
  · cases lim with
    | none => simp [trade, AgentStrategy.order, hm] at h
    | some l =>
        simp only [trade, AgentStrategy.order, hm, ite_false, if_neg,
          Option.some.injEq] at h
        exact ⟨l, _, h.symm, fun hc => absurd hc hm, fun _ => rfl⟩

/-- C6: across one engine tick, every `LimitOrderAgent`'s stored limit is
reassigned to `limit_ratio_value` (0.9999) times the market value passed to
its `order` call exactly when the tick index is a multiple of
`limit_wait_ticks` (10), and is retained unchanged otherwise. -/
theorem limit_checkpoint {ι : Type} (inj : ℕ → ℚ)
    (sim : (ι → ℚ) → ℕ → (ι → ℚ)) (m m' : Market ι)
    (h : m.tick inj sim = some m') :
    List.Forall₂ (fun a b =>
      ∀ lim, a.1 = AgentStrategy.LimitOrderAgent lim →
        ∃ l' st', b = (AgentStrategy.LimitOrderAgent (some l'), st') ∧
          (m.tick_count % limit_wait_ticks = 0 →
            l' = fun i => m.market_value i * limit_ratio_value) ∧
          (¬ m.tick_count % limit_wait_ticks = 0 → some l' = lim))
      m.agents m'.agents := by
  rw [Market.tick] at h
  cases htl : tradeLoop m.market_value m.tick_count (inj m.tick_count)
      m.agents with
  | none => rw [htl] at h; exact Option.noConfusion h
  | some ags =>
      rw [htl] at h
      obtain rfl := Option.some.inj h
      refine List.Forall₂.imp ?_ (tradeLoop_forall₂ _ _ _ _ _ htl)
      intro a b hab lim hlim
      rw [hlim] at hab
      exact trade_limit_update _ _ lim _ b hab

/-- Witness for C6: at tick 0 (a checkpoint) the fixture's `LimitOrderAgent`
acquires the limit `market_value * limit_ratio_value`. -/
theorem limit_checkpoint_witness :
    ∃ l' st',
      w6_m1.agents.get ⟨0, by decide⟩
        = (AgentStrategy.LimitOrderAgent (some l'), st') ∧
      l' = fun i => w6_m0.market_value i * limit_ratio_value := by
  have h := limit_checkpoint w_inj w_sim w6_m0 w6_m1 rfl
  have h0 := (List.forall₂_iff_get.mp h).2 0 (by decide) (by decide)
  obtain ⟨l', st', hb, hchk, -⟩ := h0 none rfl
  exact ⟨l', st', hb, hchk rfl⟩

/-- C5: the spec's end-to-end scenario — one lane, a `KeepCashAgent` and an
`AllInAgent`, 100 injected every tick, identity price model; after 5 ticks
the holder has cash 500 / depot 0 and the all-in agent has cash 0 /
depot 500. -/
theorem end_to_end_scenario :
    ∀ i : Fin 1,
      (runTicks (fun _ => 100) (fun mv _ => mv) 5
          (Market.init
            [AgentStrategy.KeepCashAgent, AgentStrategy.AllInAgent])).map
        (fun m => m.agents.map (fun a => (a.2.cash i, a.2.depot i)))
      = some [(500, 0), (0, 500)] := by
  intro i
  norm_num [runTicks, Market.tick, Market.init, tradeLoop, trade,
    AgentStrategy.order, settle, addCash]

/-- Every order produced by a provided strategy is non-negative per lane
(given non-negative cash and a positive price). -/
theorem order_nonneg {ι : Type} {s : AgentStrategy ι} {st : AgentState ι}
    {market_value : ι → ℚ} {tick : ℕ} {ord : ι → ℚ} {s' : AgentStrategy ι}
    (h : s.order st market_value tick = some (ord, s'))
    (hpos : ∀ i, 0 < market_value i) (hcash : ∀ i, 0 ≤ st.cash i) :
    ∀ i, 0 ≤ ord i := by
  cases s with
  | KeepCashAgent =>
      simp only [AgentStrategy.order, Option.some.injEq, Prod.mk.injEq] at h
      obtain ⟨rfl, -⟩ := h
      intro i
      exact le_refl 0
  | AllInAgent =>
      simp only [AgentStrategy.order, Option.some.injEq, Prod.mk.injEq] at h
      obtain ⟨rfl, -⟩ := h
      intro i
      exact div_nonneg (hcash i) (hpos i).le
  | LimitOrderAgent lim =>
      by_cases hm : tick % limit_wait_ticks = 0
      · simp only [AgentStrategy.order, hm, ite_true, if_pos,
          Option.some.injEq, Prod.mk.injEq] at h
        obtain ⟨rfl, -⟩ := h
        intro i
        refine mul_nonneg (div_nonneg (hcash i) (hpos i).le) ?_
        split <;> norm_num
      · cases lim with
        | none => simp [AgentStrategy.order, hm] at h
        | some l =>
            simp only [AgentStrategy.order, hm, ite_false, if_neg,
              Option.some.injEq, Prod.mk.injEq] at h
            obtain ⟨rfl, -⟩ := h
            intro i
            refine mul_nonneg (div_nonneg (hcash i) (hpos i).le) ?_
            split <;> norm_num

/-- Settling a non-negative order keeps cash and depot non-negative. -/
theorem settle_nonneg {ι : Type} {market_value ord : ι → ℚ}
    {st : AgentState ι} (hpos : ∀ i, 0 < market_value i)
    (hst : laneNonneg st) (hord : ∀ i, 0 ≤ ord i) :
    laneNonneg (settle market_value ord st) := by
  intro i
  refine ⟨sub_nonneg.2 (min_le_right _ _), ?_⟩
  exact add_nonneg (hst i).2
    (div_nonneg (le_min (mul_nonneg (hpos i).le (hord i)) (hst i).1)
      (hpos i).le)

/-- A successful `Market.trade` keeps the agent's state non-negative. -/
theorem trade_nonneg {ι : Type} {market_value : ι → ℚ} {tick : ℕ}
    {a p : AgentStrategy ι × AgentState ι}
    (h : trade market_value tick a = some p)
    (hpos : ∀ i, 0 < market_value i) (hst : laneNonneg a.2) :
    laneNonneg p.2 := by
  obtain ⟨s, st⟩ := a
  rw [trade] at h
  cases ho : AgentStrategy.order s st market_value tick with
  | none => rw [ho] at h; exact Option.noConfusion h
  | some q =>
      obtain ⟨ord, s'⟩ := q
      rw [ho] at h
      obtain rfl := Option.some.inj h
      exact settle_nonneg hpos hst (order_nonneg ho hpos (fun i => (hst i).1))

/-- A non-negative cash injection keeps the agent's state non-negative. -/
theorem addCash_nonneg {ι : Type} {c : ℚ} {st : AgentState ι}
    (hc : 0 ≤ c) (hst : laneNonneg st) : laneNonneg (addCash c st) :=
  fun i => ⟨add_nonneg (hst i).1 hc, (hst i).2⟩

/-- A successful agent loop keeps every agent's state non-negative. -/
theorem tradeLoop_nonneg {ι : Type} {market_value : ι → ℚ} {tick : ℕ}
    {c : ℚ} (hpos : ∀ i, 0 < market_value i) (hc : 0 ≤ c)
    {l l' : List (AgentStrategy ι × AgentState ι)}
    (hl : ∀ p ∈ l, laneNonneg p.2)
    (h : tradeLoop market_value tick c l = some l') :
    ∀ p ∈ l', laneNonneg p.2 := by
  intro p hp
  have hf := tradeLoop_forall₂ market_value tick c l l' h
  have hlen := hf.length_eq
  obtain ⟨⟨k, hk⟩, rfl⟩ := List.mem_iff_get.mp hp
  have hr := (List.forall₂_iff_get.mp hf).2 k (by omega) hk
  exact trade_nonneg hr hpos
    (addCash_nonneg hc (hl _ (List.get_mem _ _ _)))

/-- A successful `Market.tick` preserves the run invariant, given
non-negative injections and a positivity-preserving price model. -/
theorem tick_inv {ι : Type} {inj : ℕ → ℚ} {sim : (ι → ℚ) → ℕ → (ι → ℚ)}
    {m m' : Market ι} (hinj : ∀ t, 0 ≤ inj t)
    (hsim : ∀ (mv : ι → ℚ) t, (∀ i, 0 < mv i) → ∀ i, 0 < sim mv t i)
    (hm : MarketInv m) (h : m.tick inj sim = some m') : MarketInv m' := by
  rw [Market.tick] at h
  cases htl : tradeLoop m.market_value m.tick_count (inj m.tick_count)
      m.agents with
  | none => rw [htl] at h; exact Option.noConfusion h
  | some ags =>
      rw [htl] at h
      obtain rfl := Option.some.inj h
      exact ⟨fun i => hsim _ _ hm.1 i,
        fun p hp => tradeLoop_nonneg hm.1 (hinj _) hm.2 htl p hp⟩

/-- `runTicks` preserves the run invariant. -/
theorem runTicks_inv {ι : Type} {inj : ℕ → ℚ} {sim : (ι → ℚ) → ℕ → (ι → ℚ)}
    (hinj : ∀ t, 0 ≤ inj t)
    (hsim : ∀ (mv : ι → ℚ) t, (∀ i, 0 < mv i) → ∀ i, 0 < sim mv t i)
    (n : ℕ) (m m' : Market ι) (hm : MarketInv m)
    (h : runTicks inj sim n m = some m') : MarketInv m' := by
  induction n generalizing m with
  | zero =>
      obtain rfl := Option.some.inj h
      exact hm
  | succ n ih =>
      rw [runTicks] at h
      cases ht : m.tick inj sim with
      | none => rw [ht] at h; exact Option.noConfusion h
      | some m₁ =>
          rw [ht] at h
          exact ih m₁ (tick_inv hinj hsim hm ht) h

/-- The freshly constructed market satisfies the run invariant. -/
theorem init_inv {ι : Type} (strategies : List (AgentStrategy ι)) :
    MarketInv (Market.init strategies) := by
  refine ⟨fun i => one_pos, ?_⟩
  intro p hp
  simp only [Market.init, List.mem_map] at hp
  obtain ⟨s, -, rfl⟩ := hp
  intro i
  exact ⟨le_refl 0, le_refl 0⟩

/-- C2: in every run of the engine from the zero initial state, with
non-negative cash injections and a price model that keeps every lane's
market value positive, each agent's cash and depot are non-negative in every
lane after every tick. -/
theorem non_negativity_run {ι : Type} (inj : ℕ → ℚ)
    (sim : (ι → ℚ) → ℕ → (ι → ℚ)) (strategies : List (AgentStrategy ι))
    (n : ℕ) (m : Market ι) (hinj : ∀ t, 0 ≤ inj t)
    (hsim : ∀ (mv : ι → ℚ) t, (∀ i, 0 < mv i) → ∀ i, 0 < sim mv t i)
    (hrun : runTicks inj sim n (Market.init strategies) = some m) :
    ∀ p ∈ m.agents, ∀ i, 0 ≤ p.2.cash i ∧ 0 ≤ p.2.depot i :=
  fun p hp i =>
    (runTicks_inv hinj hsim n (Market.init strategies) m
      (init_inv strategies) hrun).2 p hp i

/-- Witness for C2: after one tick of the three-strategy fixture the
`LimitOrderAgent` (index 2) has non-negative cash and depot. -/
theorem non_negativity_run_witness :
    0 ≤ (w2_m1.agents.get ⟨2, by decide⟩).2.cash 0 ∧
    0 ≤ (w2_m1.agents.get ⟨2, by decide⟩).2.depot 0 :=
  non_negativity_run w_inj w_sim
    [.KeepCashAgent, .AllInAgent, .LimitOrderAgent none] 1 w2_m1
    (fun t => by norm_num [w_inj]) (fun mv t h i => h i) rfl
    (w2_m1.agents.get ⟨2, by decide⟩) (List.get_mem _ _ _) 0
